import Mathlib

/-!
Verification of the meex repository's packet decoding and stream-continuity
engine against its specification.

The Go sources are shallowly embedded: byte slices become `List ℕ` (each
entry one byte value), machine integers become `ℕ`/`ℤ` with explicit
`% 2^32` / `% 2^64` where overflow matters, `time.Time`/`time.Duration`
values become `ℤ` nanosecond counts, and fallible code (index panics,
decode errors) returns `Option`/`Except`/error components.
-/

namespace RT

/-- shortError from the rt dump tool: an error value carrying the wanted and
actual byte counts (`Want = 0` is the sentinel used for the header read).
`invalid` models `ErrInvalid`. -/
inductive DecodeErr where
  | short (want got : ℕ)
  | invalid
deriving DecidableEq

/-- binary.LittleEndian.Uint16 of the two bytes at offset `o` of `l`. -/
def leUint16At (l : List ℕ) (o : ℕ) : ℕ :=
  l.getD o 0 + 256 * l.getD (o + 1) 0

/-- binary.LittleEndian.Uint32 of the four bytes at offset `o` of `l`. -/
def leUint32At (l : List ℕ) (o : ℕ) : ℕ :=
  l.getD o 0 + 256 * l.getD (o + 1) 0 + 65536 * l.getD (o + 2) 0
    + 16777216 * l.getD (o + 3) 0

/-- binary.LittleEndian.Uint64 of the eight bytes at offset `o` of `l`. -/
def leUint64At (l : List ℕ) (o : ℕ) : ℕ :=
  l.getD o 0 + 256 * l.getD (o + 1) 0 + 65536 * l.getD (o + 2) 0
    + 16777216 * l.getD (o + 3) 0 + 4294967296 * l.getD (o + 4) 0
    + 1099511627776 * l.getD (o + 5) 0 + 281474976710656 * l.getD (o + 6) 0
    + 72057594037927936 * l.getD (o + 7) 0

/-- binary.BigEndian.Uint16 of the two bytes at offset `o` of `l`. -/
def beUint16At (l : List ℕ) (o : ℕ) : ℕ :=
  256 * l.getD o 0 + l.getD (o + 1) 0

/-- binary.BigEndian.Uint32 of the four bytes at offset `o` of `l`. -/
def beUint32At (l : List ℕ) (o : ℕ) : ℕ :=
  16777216 * l.getD o 0 + 65536 * l.getD (o + 1) 0 + 256 * l.getD (o + 2) 0
    + l.getD (o + 3) 0

/-- scalar remainder loop of calculateSum: adds the remaining bytes one at a
time into the running uint32 sum (each addition wraps modulo 2^32). -/
def sumScalar : List ℕ → ℕ → ℕ
  | [], s => s
  | b :: rest, s => sumScalar rest ((s + b) % 4294967296)

/-- block loop of calculateSum: while at least blockSize = 16 bytes remain,
adds a 16-byte block (the Go code spells the block out as sixteen explicit
byte additions; uint32 wrapping commutes with the grouping, so the block is
added as its sum, reduced modulo 2^32), then falls through to the scalar
remainder loop for the final 0-15 bytes. -/
def sumBlocks (l : List ℕ) (s : ℕ) : ℕ :=
  if h : 16 ≤ l.length then
    sumBlocks (l.drop 16) ((s + (l.take 16).sum) % 4294967296)
  else
    sumScalar l s
termination_by l.length
decreasing_by simp only [List.length_drop]; omega

/-- calculateSum (src/unnamed/part_001:388): sums every byte of `body` except
the final 4 (`limit = len(body) - 4`) in blocks of 16 with a scalar remainder
loop, then compares against the little-endian uint32 stored in the last
4 bytes. Returns the sum and the validity outcome (`true` = the Go code
returned the `unknown` marker, `false` = the `invalid` marker). `none` models
the index panic `body[limit:]` raised when `len(body) < 4`. -/
def calculateSum (body : List ℕ) : Option (ℕ × Bool) :=
  if body.length < 4 then none
  else
    let limit := body.length - 4
    let s := sumBlocks (body.take limit) 0
    let expected := leUint32At body limit
    some (s, expected == s)

theorem sumScalar_eq (l : List ℕ) : ∀ s : ℕ, s < 4294967296 →
    sumScalar l s = (s + l.sum) % 4294967296 := by
  induction l with
  | nil => intro s hs; simp [sumScalar, Nat.mod_eq_of_lt hs]
  | cons b rest ih =>
    intro s hs
    rw [sumScalar, ih _ (Nat.mod_lt _ (by norm_num)), Nat.mod_add_mod]
    simp [Nat.add_assoc]

theorem sumBlocks_eq : ∀ (n : ℕ) (l : List ℕ), l.length ≤ n →
    ∀ s : ℕ, s < 4294967296 → sumBlocks l s = (s + l.sum) % 4294967296 := by
  intro n
  induction n with
  | zero =>
    intro l hl s hs
    rw [sumBlocks]
    have hnot : ¬ 16 ≤ l.length := by omega
    rw [dif_neg hnot]
    exact sumScalar_eq l s hs
  | succ n ih =>
    intro l hl s hs
    rw [sumBlocks]
    by_cases h : 16 ≤ l.length
    · rw [dif_pos h, ih _ (by simp only [List.length_drop]; omega) _
        (Nat.mod_lt _ (by norm_num)), Nat.mod_add_mod, Nat.add_assoc,
        List.sum_take_add_sum_drop]
    · rw [dif_neg h]
      exact sumScalar_eq l s hs

/-- C2: for every byte slice `body` of length at least 4, calculateSum
returns (never raising) the sum, modulo 2^32, of every byte of `body` except
the final 4 bytes — computed by the 16-byte block loop and scalar remainder
loop — and reports the packet valid exactly when this sum equals the 32-bit
little-endian integer stored in the last 4 bytes. -/
theorem claim_C2_calculateSum (body : List ℕ) (h : 4 ≤ body.length) :
    ∃ s valid, calculateSum body = some (s, valid)
      ∧ s = (body.take (body.length - 4)).sum % 4294967296
      ∧ (valid = true ↔ leUint32At body (body.length - 4) = s) := by
  refine ⟨sumBlocks (body.take (body.length - 4)) 0,
    leUint32At body (body.length - 4) == sumBlocks (body.take (body.length - 4)) 0,
    ?_, ?_, ?_⟩
  · rw [calculateSum, if_neg (by omega)]
  · rw [sumBlocks_eq (body.take (body.length - 4)).length _ le_rfl 0 (by norm_num),
      Nat.zero_add]
  · exact beq_iff_eq

theorem claim_C2_calculateSum_witness :
    4 ≤ ([6, 7, 8, 21, 0, 0, 0] : List ℕ).length
    ∧ (∃ s valid, calculateSum [6, 7, 8, 21, 0, 0, 0] = some (s, valid)
        ∧ s = (([6, 7, 8, 21, 0, 0, 0] : List ℕ).take
              (([6, 7, 8, 21, 0, 0, 0] : List ℕ).length - 4)).sum % 4294967296
        ∧ (valid = true ↔
            leUint32At [6, 7, 8, 21, 0, 0, 0]
              (([6, 7, 8, 21, 0, 0, 0] : List ℕ).length - 4) = s)) :=
  ⟨by decide, claim_C2_calculateSum [6, 7, 8, 21, 0, 0, 0] (by decide)⟩

/-- HRDLHeader from src/unnamed/part_001:245, machine integers widened to ℕ. -/
structure HRDLHeader where
  Size : ℕ
  Error : ℕ
  Channel : ℕ
  Payload : ℕ
  PacketCoarse : ℕ
  PacketFine : ℕ
  HRDPCoarse : ℕ
  HRDPFine : ℕ
deriving DecidableEq

/-- VMUHeader from src/unnamed/part_001:268. -/
structure VMUHeader where
  Size : ℕ
  Channel : ℕ
  Origin : ℕ
  Sequence : ℕ
  Coarse : ℕ
  Fine : ℕ
deriving DecidableEq

/-- VMUCommonHeader from src/unnamed/part_001:281. The two time.Duration
fields are nanosecond counts (ℕ, decoded from unsigned 64-bit fields); the
32-byte UPI array is a `List ℕ` of length 32. -/
structure VMUCommonHeader where
  Property : ℕ
  Origin : ℕ
  AcqTime : ℕ
  AuxTime : ℕ
  Stream : ℕ
  Counter : ℕ
  UPI : List ℕ
deriving DecidableEq

/-- decodeHRDL (src/unnamed/part_001:299): reads fixed-offset fields from the
18-byte envelope header with the byte order of each field preserved from the
source. The function performs no explicit length check; its highest byte
access is `body[17]`, so on a slice shorter than 18 bytes the Go code panics
with an index-out-of-range — modelled as `none`. -/
def decodeHRDL (body : List ℕ) : Option HRDLHeader :=
  if body.length < 18 then none
  else some {
    Size := leUint32At body 0
    Error := beUint16At body 4
    Payload := body.getD 6 0
    Channel := body.getD 7 0
    PacketCoarse := beUint32At body 8
    PacketFine := body.getD 12 0
    HRDPCoarse := beUint32At body 13
    HRDPFine := body.getD 17 0 }

/-- decodeVMU (src/unnamed/part_001:314): reads fixed-offset little-endian
fields from the channel header slice. The function performs no explicit
length check; its highest byte access is `body[20:22]`, so the Go code only
panics when the slice is shorter than 22 bytes (22- and 23-byte slices
decode without error even though VMUHeaderLen = 24) — the panic is modelled
as `none`. -/
def decodeVMU (body : List ℕ) : Option VMUHeader :=
  if body.length < 22 then none
  else some {
    Size := leUint32At body 4
    Channel := body.getD 8 0
    Origin := body.getD 9 0
    Sequence := leUint32At body 12
    Coarse := leUint32At body 16
    Fine := leUint16At body 20 }

/-- copy of up to 32 bytes starting at offset `off` into the zero-initialised
32-byte UPI array: Go's `copy(v.UPI[:], body[off:])` copies
`min(32, len(body)-off)` bytes and leaves the rest of the array zero. -/
def upiFrom (body : List ℕ) (off : ℕ) : List ℕ :=
  (body.drop off).take 32
    ++ List.replicate (32 - ((body.drop off).take 32).length) 0

/-- decodeCommon (src/unnamed/part_001:327): reads the common-payload header
fields at fixed little-endian offsets, then selects the UPI copy offset by
the high nibble of the leading property byte (`Property >> 4`, written `/ 16`
here; `Property` is a byte in Go, so the two agree): nibble 1 (science)
copies from offset 24, nibble 2 (image) from offset 44, any other nibble
leaves the UPI zero-filled. `none` models the Go index panics: byte accesses
up to `body[23]` need 24 bytes, and the nibble-2 slice `body[44:]` needs
44 bytes. -/
def decodeCommon (body : List ℕ) : Option VMUCommonHeader :=
  if body.length < 24 then none
  else if body.getD 0 0 / 16 = 2 ∧ body.length < 44 then none
  else some {
    Property := body.getD 0 0
    Stream := leUint16At body 1
    Counter := leUint32At body 3
    AcqTime := leUint64At body 7
    AuxTime := leUint64At body 15
    Origin := body.getD 23 0
    UPI := if body.getD 0 0 / 16 = 1 then upiFrom body 24
           else if body.getD 0 0 / 16 = 2 then upiFrom body 44
           else List.replicate 32 0 }

/-- dumpPacket (src/unnamed/part_001:139), output side effects elided: the
returned pair models Go's `(int, error)` result (`none` in the inner
`Option DecodeErr` is Go's nil error), and the outer `Option` models an
index panic inside one of the decode helpers. A body shorter than
HRDLHeaderLen + VMUHeaderLen = 42 is rejected up front with
`NotEnoughByte(0, len(body))`; then the declared-size check rejects with
`NotEnoughByte(size+12, avail+12)`; then the checksum verdict decides
between `ErrInvalid` and success. -/
def dumpPacket (body : List ℕ) (withErr : Bool) : Option (ℕ × Option DecodeErr) :=
  if body.length < 42 then some (0, some (DecodeErr.short 0 body.length))
  else
    match decodeHRDL (body.take 18) with
    | none => none
    | some _h =>
      match decodeVMU ((body.drop 18).take 24) with
      | none => none
      | some v =>
        if body.length - 30 < v.Size then
          some (0, some (DecodeErr.short (v.Size + 12) (body.length - 30 + 12)))
        else
          match decodeCommon (body.drop 42) with
          | none => none
          | some _c =>
            match calculateSum ((body.drop 26).take (v.Size + 4)) with
            | none => none
            | some (_sum, valid) =>
              if valid = false ∧ withErr = false then
                some (0, some DecodeErr.invalid)
              else
                some (v.Size, if valid then none else some DecodeErr.invalid)

/-- C5 counterexample: the per-header decode functions do not themselves fail
with a ShortBufferError on short input. decodeVMU succeeds on a 23-byte
slice even though the VMU channel header's fixed length is 24, and decodeHRDL
on a 17-byte slice panics (modelled `none`) instead of returning an error. -/
theorem claim_C5_cex :
    decodeVMU (List.replicate 23 0) = some ⟨0, 0, 0, 0, 0, 0⟩
    ∧ decodeHRDL (List.replicate 17 0) = none := by decide

/-- C5 (amended): the short-input guard lives in dumpPacket, not in the
decode functions: every body shorter than the combined fixed header length
42 = 18 + 24 is rejected with a ShortBufferError carrying the sentinel
wanted-value 0 (meaning "header read") and the actual length, without any
out-of-bounds access; decodeVMU itself accepts any slice of at least
22 bytes, and decodeHRDL panics (rather than returning an error) below 18. -/
theorem claim_C5_amended :
    (∀ (body : List ℕ) (we : Bool), body.length < 42 →
        dumpPacket body we = some (0, some (DecodeErr.short 0 body.length)))
    ∧ (∀ body : List ℕ, 22 ≤ body.length → (decodeVMU body).isSome = true)
    ∧ (∀ body : List ℕ, body.length < 18 → decodeHRDL body = none) := by
  refine ⟨?_, ?_, ?_⟩
  · intro body we h
    rw [dumpPacket, if_pos h]
  · intro body h
    rw [decodeVMU, if_neg (by omega)]
    rfl
  · intro body h
    rw [decodeHRDL, if_pos h]

theorem claim_C5_amended_witness :
    dumpPacket (List.replicate 17 0) false
        = some (0, some (DecodeErr.short 0 (List.replicate 17 (0 : ℕ)).length))
    ∧ (decodeVMU (List.replicate 23 0)).isSome = true
    ∧ decodeHRDL (List.replicate 17 0) = none :=
  ⟨claim_C5_amended.1 (List.replicate 17 0) false (by decide),
   claim_C5_amended.2.1 (List.replicate 23 0) (by decide),
   claim_C5_amended.2.2 (List.replicate 17 0) (by decide)⟩

theorem getD_set_zero_ne (l : List ℕ) (a : ℕ) (i : ℕ) (h : i ≠ 0) :
    (l.set 0 a).getD i 0 = l.getD i 0 := by
  simp [List.getD_eq_getElem?_getD, List.getElem?_set_ne (Ne.symm h)]

/-- C4: for every common-payload header slice (long enough for every branch,
i.e. at least 44 bytes), decodeCommon selects the UPI copy offset by the high
nibble of the leading property byte — nibble 1 copies from offset 24,
nibble 2 from offset 44, anything else leaves the 32-byte UPI zero-filled —
and every other decoded field is unaffected by this choice: overwriting the
property byte (hence the nibble) never changes Stream, Counter, AcqTime,
AuxTime or Origin. -/
theorem claim_C4_decodeCommon (body : List ℕ) (h : 44 ≤ body.length) :
    ∃ hdr, decodeCommon body = some hdr
      ∧ hdr.UPI = (if body.getD 0 0 / 16 = 1 then upiFrom body 24
                   else if body.getD 0 0 / 16 = 2 then upiFrom body 44
                   else List.replicate 32 0)
      ∧ ∀ p', ∃ hdr', decodeCommon (body.set 0 p') = some hdr'
          ∧ hdr'.Stream = hdr.Stream ∧ hdr'.Counter = hdr.Counter
          ∧ hdr'.AcqTime = hdr.AcqTime ∧ hdr'.AuxTime = hdr.AuxTime
          ∧ hdr'.Origin = hdr.Origin := by
  rw [decodeCommon, if_neg (by omega), if_neg (by omega)]
  refine ⟨_, rfl, rfl, ?_⟩
  intro p'
  rw [decodeCommon, if_neg (by simp only [List.length_set]; omega),
    if_neg (by simp only [List.length_set]; omega)]
  refine ⟨_, rfl, ?_, ?_, ?_, ?_, ?_⟩ <;>
    · simp only [leUint16At, leUint32At, leUint64At]
      norm_num [getD_set_zero_ne]

theorem claim_C4_decodeCommon_witness :
    44 ≤ (List.replicate 44 (17 : ℕ)).length
    ∧ (∃ hdr, decodeCommon (List.replicate 44 17) = some hdr
        ∧ hdr.UPI = (if (List.replicate 44 (17 : ℕ)).getD 0 0 / 16 = 1 then
                       upiFrom (List.replicate 44 17) 24
                     else if (List.replicate 44 (17 : ℕ)).getD 0 0 / 16 = 2 then
                       upiFrom (List.replicate 44 17) 44
                     else List.replicate 32 0)
        ∧ ∀ p', ∃ hdr', decodeCommon ((List.replicate 44 17).set 0 p') = some hdr'
            ∧ hdr'.Stream = hdr.Stream ∧ hdr'.Counter = hdr.Counter
            ∧ hdr'.AcqTime = hdr.AcqTime ∧ hdr'.AuxTime = hdr.AuxTime
            ∧ hdr'.Origin = hdr.Origin) :=
  ⟨by decide, claim_C4_decodeCommon (List.replicate 44 17) (by decide)⟩

/-- shouldKeepRune (src/unnamed/part_001:366), parametrised by the Go
standard-library predicates `unicode.IsLetter` / `unicode.IsDigit` (external
to this repository): returns (keep, done). A NUL byte and every byte that is
neither a letter, a digit, '-' (45) nor '_' (95) stops the scan
(done = true); an allowed byte is kept. -/
def shouldKeepRune (isL isD : ℕ → Bool) (r : ℕ) : Bool × Bool :=
  if r = 0 then (false, true)
  else if isL r || isD r || r == 45 || r == 95 then (true, false)
  else (false, true)

/-- userInfo (src/unnamed/part_001:229): walks the UPI bytes in order,
stopping at the first byte whose shouldKeepRune verdict is done, skipping a
byte with keep = false (a branch shouldKeepRune can in fact never take
without also being done), and collecting kept bytes. The Go code writes kept
bytes into a shared buffer and returns its filled prefix; the returned list
models that prefix. -/
def userInfo (isL isD : ℕ → Bool) : List ℕ → List ℕ
  | [] => []
  | b :: rest =>
    let kd := shouldKeepRune isL isD b
    if kd.2 then []
    else if kd.1 then b :: userInfo isL isD rest
    else userInfo isL isD rest

theorem takeWhile_longest {α : Type} (p : α → Bool) :
    ∀ (l pre : List α), pre <+: l → (∀ b ∈ pre, p b = true) →
      pre.length ≤ (l.takeWhile p).length := by
  intro l
  induction l with
  | nil => intro pre hp _; simpa using hp.length_le
  | cons a t ih =>
    intro pre hp hall
    match pre, hp with
    | [], _ => simp
    | b :: pre', hp =>
      obtain ⟨rest, hrest⟩ := hp
      have hb : b = a := by
        have := congrArg (fun l => l.headD a) hrest.symm
        simpa using this.symm
      have htail : pre' <+: t := ⟨rest, by simpa [hb] using hrest⟩
      have hpa : p a = true := hb ▸ hall b (by simp)
      simp only [List.takeWhile_cons, hpa, if_pos]
      simpa using ih pre' htail fun x hx => hall x (by simp [hx])

/-- C9: userInfo returns exactly the longest prefix of the UPI bytes
consisting solely of allowed bytes (letters, digits, '-' = 45, '_' = 95 —
the NUL byte is disallowed): it equals takeWhile of the allowed-byte
predicate, is a prefix of the input all of whose bytes are allowed and
nonzero, and no strictly longer all-allowed prefix exists — so nothing after
the first disallowed byte is ever included. Stated for every choice of the
external letter/digit predicates. -/
theorem claim_C9_userInfo (isL isD : ℕ → Bool) (upi : List ℕ) :
    userInfo isL isD upi
        = upi.takeWhile (fun b => !(b == 0) && (isL b || isD b || b == 45 || b == 95))
    ∧ userInfo isL isD upi <+: upi
    ∧ (∀ b ∈ userInfo isL isD upi,
        b ≠ 0 ∧ (isL b || isD b || b == 45 || b == 95) = true)
    ∧ (∀ pre, pre <+: upi →
        (∀ b ∈ pre, b ≠ 0 ∧ (isL b || isD b || b == 45 || b == 95) = true) →
        pre.length ≤ (userInfo isL isD upi).length) := by
  have key : userInfo isL isD upi
      = upi.takeWhile (fun b => !(b == 0) && (isL b || isD b || b == 45 || b == 95)) := by
    induction upi with
    | nil => rfl
    | cons b rest ih =>
      by_cases hb : b = 0
      · subst hb; simp [userInfo, shouldKeepRune]
      · by_cases hk : (isL b || isD b || b == 45 || b == 95) = true
        · simpa [userInfo, shouldKeepRune, hb, hk] using ih
        · simp [userInfo, shouldKeepRune, hb, hk, Bool.not_eq_true _ ▸ hk]
  refine ⟨key, ?_, ?_, ?_⟩
  · rw [key]; exact List.takeWhile_prefix _
  · intro b hb
    rw [key] at hb
    have := List.mem_takeWhile_imp hb
    simp only [Bool.and_eq_true, Bool.not_eq_eq_eq_not, Bool.not_true, beq_eq_false_iff_ne,
      ne_eq] at this
    exact ⟨this.1, this.2⟩
  · intro pre hpre hall
    rw [key]
    refine takeWhile_longest _ upi pre hpre ?_
    intro b hb
    have := hall b hb
    simp only [Bool.and_eq_true, Bool.not_eq_eq_eq_not, Bool.not_true, beq_eq_false_iff_ne,
      ne_eq]
    exact ⟨this.1, this.2⟩

theorem claim_C9_userInfo_witness :
    userInfo (fun b => decide (65 ≤ b ∧ b ≤ 90)) (fun b => decide (48 ≤ b ∧ b ≤ 57))
        [65, 95, 49, 0, 66]
      = ([65, 95, 49, 0, 66] : List ℕ).takeWhile
          (fun b => !(b == 0) && ((decide (65 ≤ b ∧ b ≤ 90) : Bool)
            || (decide (48 ≤ b ∧ b ≤ 57) : Bool) || b == 45 || b == 95)) :=
  (claim_C9_userInfo _ _ _).1

end RT

namespace Vmucat

/-- vmu.VMUHeader as used by cmd/vmucat (the vmu package is external to this
repository): only the fields the gap/count logic reads are modelled. `Stamp`
is the nanosecond instant returned by the header's `Timestamp()` method. -/
structure VMUHeader where
  Sequence : ℕ
  Stamp : ℤ
deriving DecidableEq

/-- vmu.DataHeader as used by cmd/vmucat: `Counter` is the monotonic counter
and `AcqStamp` the nanosecond instant returned by `Acquisition()`. -/
structure DataHeader where
  Counter : ℕ
  Origin : ℕ
  AcqStamp : ℤ
deriving DecidableEq

/-- vmu.Packet restricted to the headers cmd/vmucat reads. -/
structure Packet where
  vmu : VMUHeader
  data : DataHeader
deriving DecidableEq

/-- meex.Gap as constructed by cmd/vmucat's gap detectors. Field layout is
modelled from the spec's Gap entity (the meex root package is not under
src/): identifier, bracketing sequence values, bracketing nanosecond
timestamps. -/
structure Gap where
  Id : ℤ
  First : ℤ
  Last : ℤ
  Starts : ℤ
  Ends : ℤ
deriving DecidableEq

/-- Modelled from the spec: meex.Gap.Missing is not under src/; the spec
defines the derived missing count as the absolute difference of the two
bracketing sequence values minus one. -/
def Gap.Missing (g : Gap) : ℤ :=
  ((g.First - g.Last).natAbs : ℤ) - 1

/-- gapByChannel (src/cmd/vmucat/main.go:324): `last`/`first` are the signed
widenings of the current and previous VMU sequence counters, `delta` the
timestamp difference; a Gap is produced iff `last - first ≠ 1` and the
configured duration is zero or `delta` is within it. Note the assignments
`g.Last = first`, `g.First = last` from the source. -/
def gapByChannel (p prev : Packet) (duration : ℤ) : Option Gap :=
  let last : ℤ := p.vmu.Sequence
  let first : ℤ := prev.vmu.Sequence
  let delta : ℤ := p.vmu.Stamp - prev.vmu.Stamp
  if last - first ≠ 1 ∧ (duration = 0 ∨ delta ≤ duration) then
    some { Id := 0, First := last, Last := first,
           Starts := prev.vmu.Stamp, Ends := p.vmu.Stamp }
  else
    none

/-- gapByOrigin (src/cmd/vmucat/main.go:339): same logic on the data header's
counter and acquisition timestamp. -/
def gapByOrigin (p prev : Packet) (duration : ℤ) : Option Gap :=
  let last : ℤ := p.data.Counter
  let first : ℤ := prev.data.Counter
  let delta : ℤ := p.data.AcqStamp - prev.data.AcqStamp
  if last - first ≠ 1 ∧ (duration = 0 ∨ delta ≤ duration) then
    some { Id := 0, First := last, Last := first,
           Starts := prev.data.AcqStamp, Ends := p.data.AcqStamp }
  else
    none

/-- missBy for `count -b channel` (src/cmd/vmucat/main.go:135): 0 when the
current uint32 sequence counter is below the previous one, otherwise the
uint32 difference widened to uint64 and decremented with uint64 wraparound
(`x - 1 = (x + 2^64 - 1) mod 2^64`). -/
def missByChannel (p prev : Packet) : ℕ :=
  if p.vmu.Sequence < prev.vmu.Sequence then 0
  else ((p.vmu.Sequence - prev.vmu.Sequence) % 4294967296
          + 18446744073709551615) % 18446744073709551616

/-- missBy for `count -b origin` (src/cmd/vmucat/main.go:146): the same
computation on the data header's counter. -/
def missByOrigin (p prev : Packet) : ℕ :=
  if p.data.Counter < prev.data.Counter then 0
  else ((p.data.Counter - prev.data.Counter) % 4294967296
          + 18446744073709551615) % 18446744073709551616

/-- C1: for both the channel-based and the origin-based grouping, the gap
detector emits a Gap if and only if the signed sequence difference is not 1
and the configured maximum duration is zero or the elapsed time between the
two packets' timestamps is within it; every emitted Gap's missing count is
the absolute sequence difference minus one. In particular a delta of exactly
1 never emits, and a delta ≠ 1 with elapsed time beyond a positive maximum
emits nothing. -/
theorem claim_C1_gapDetector (p prev : Packet) (d : ℤ) :
    ((gapByChannel p prev d).isSome = true ↔
        ((p.vmu.Sequence : ℤ) - (prev.vmu.Sequence : ℤ) ≠ 1
          ∧ (d = 0 ∨ p.vmu.Stamp - prev.vmu.Stamp ≤ d)))
    ∧ (∀ g, gapByChannel p prev d = some g →
        g.Missing = (((p.vmu.Sequence : ℤ) - (prev.vmu.Sequence : ℤ)).natAbs : ℤ) - 1)
    ∧ ((gapByOrigin p prev d).isSome = true ↔
        ((p.data.Counter : ℤ) - (prev.data.Counter : ℤ) ≠ 1
          ∧ (d = 0 ∨ p.data.AcqStamp - prev.data.AcqStamp ≤ d)))
    ∧ (∀ g, gapByOrigin p prev d = some g →
        g.Missing = (((p.data.Counter : ℤ) - (prev.data.Counter : ℤ)).natAbs : ℤ) - 1) := by
  refine ⟨?_, ?_, ?_, ?_⟩
  · rw [gapByChannel]
    split
    · next hcond => simpa using hcond
    · next hcond => simpa using hcond
  · intro g hg
    rw [gapByChannel] at hg
    split at hg
    · cases hg; rfl
    · exact absurd hg (by simp)
  · rw [gapByOrigin]
    split
    · next hcond => simpa using hcond
    · next hcond => simpa using hcond
  · intro g hg
    rw [gapByOrigin] at hg
    split at hg
    · cases hg; rfl
    · exact absurd hg (by simp)

theorem claim_C1_gapDetector_witness :
    (gapByChannel ⟨⟨13, 1000⟩, ⟨13, 0, 1000⟩⟩ ⟨⟨11, 0⟩, ⟨11, 0, 0⟩⟩ 2000).isSome = true
    ∧ Gap.Missing ⟨0, 13, 11, 0, 1000⟩ = (((13 : ℤ) - (11 : ℤ)).natAbs : ℤ) - 1 :=
  ⟨(claim_C1_gapDetector ⟨⟨13, 1000⟩, ⟨13, 0, 1000⟩⟩ ⟨⟨11, 0⟩, ⟨11, 0, 0⟩⟩ 2000).1.mpr
      (by decide),
   (claim_C1_gapDetector ⟨⟨13, 1000⟩, ⟨13, 0, 1000⟩⟩ ⟨⟨11, 0⟩, ⟨11, 0, 0⟩⟩ 2000).2.1
      ⟨0, 13, 11, 0, 1000⟩ (by decide)⟩

/-- C3 counterexample: for a packet pair with sequence counters 11 then 13
(elapsed 1000ns, maximum 2000ns) the emitted Gap has First = 13 — the later
bracketing value, not 11 as the claim states. -/
theorem claim_C3_cex :
    gapByChannel ⟨⟨13, 1000⟩, ⟨13, 0, 1000⟩⟩ ⟨⟨11, 0⟩, ⟨11, 0, 0⟩⟩ 2000
      = some ⟨0, 13, 11, 0, 1000⟩
    ∧ (⟨0, 13, 11, 0, 1000⟩ : Gap).First ≠ 11 := by decide

/-- C3 (amended): for every pair of consecutive same-identifier packets with
sequence counters 11 then 13 and elapsed time within the maximum gap
duration (or the duration unset), the emitted Gap carries First = 13 and
Last = 11 — the field names are inverted relative to chronological
bracketing order, First holding the later value and Last the earlier one —
and a missing count of 1. -/
theorem claim_C3_amended (p prev : Packet) (d : ℤ)
    (h11 : prev.vmu.Sequence = 11) (h13 : p.vmu.Sequence = 13)
    (hd : d = 0 ∨ p.vmu.Stamp - prev.vmu.Stamp ≤ d) :
    ∃ g, gapByChannel p prev d = some g
      ∧ g.First = 13 ∧ g.Last = 11 ∧ g.Missing = 1 := by
  have hne : (p.vmu.Sequence : ℤ) - (prev.vmu.Sequence : ℤ) ≠ 1 := by
    rw [h11, h13]; norm_num
  rw [gapByChannel]
  split
  · next hcond =>
    refine ⟨_, rfl, ?_, ?_, ?_⟩
    · rw [h13]; norm_num
    · rw [h11]; norm_num
    · simp only [Gap.Missing]
      rw [h11, h13]
      norm_num
  · next hcond => exact absurd ⟨hne, hd⟩ hcond

theorem claim_C3_amended_witness :
    ∃ g, gapByChannel ⟨⟨13, 500⟩, ⟨13, 0, 500⟩⟩ ⟨⟨11, 0⟩, ⟨11, 0, 0⟩⟩ 0 = some g
      ∧ g.First = 13 ∧ g.Last = 11 ∧ g.Missing = 1 :=
  claim_C3_amended ⟨⟨13, 500⟩, ⟨13, 0, 500⟩⟩ ⟨⟨11, 0⟩, ⟨11, 0, 0⟩⟩ 0
    (by decide) (by decide) (Or.inl rfl)

/-- C10: in the count command, for both groupings, the missing-count
increment between two consecutive same-group packets whose counters fit in
uint32 is the 64-bit wrapped value (curr - prev) - 1 whenever curr ≥ prev,
is plain curr - prev - 1 when curr > prev, is 0 when curr < prev, and for
equal counters is the uint64 underflow 2^64 - 1. -/
theorem claim_C10_missBy (p prev : Packet)
    (hc : p.vmu.Sequence < 4294967296) (hcp : prev.vmu.Sequence < 4294967296)
    (ho : p.data.Counter < 4294967296) (hop : prev.data.Counter < 4294967296) :
    (prev.vmu.Sequence ≤ p.vmu.Sequence →
        missByChannel p prev
          = (p.vmu.Sequence - prev.vmu.Sequence + 18446744073709551615)
              % 18446744073709551616)
    ∧ (prev.vmu.Sequence < p.vmu.Sequence →
        missByChannel p prev = p.vmu.Sequence - prev.vmu.Sequence - 1)
    ∧ (p.vmu.Sequence < prev.vmu.Sequence → missByChannel p prev = 0)
    ∧ (p.vmu.Sequence = prev.vmu.Sequence →
        missByChannel p prev = 18446744073709551615)
    ∧ (prev.data.Counter ≤ p.data.Counter →
        missByOrigin p prev
          = (p.data.Counter - prev.data.Counter + 18446744073709551615)
              % 18446744073709551616)
    ∧ (prev.data.Counter < p.data.Counter →
        missByOrigin p prev = p.data.Counter - prev.data.Counter - 1)
    ∧ (p.data.Counter < prev.data.Counter → missByOrigin p prev = 0)
    ∧ (p.data.Counter = prev.data.Counter →
        missByOrigin p prev = 18446744073709551615) := by
  refine ⟨?_, ?_, ?_, ?_, ?_, ?_, ?_, ?_⟩
  · intro hle
    rw [missByChannel, if_neg (by omega)]
    omega
  · intro hlt
    rw [missByChannel, if_neg (by omega)]
    omega
  · intro hlt
    rw [missByChannel, if_pos hlt]
  · intro heq
    rw [missByChannel, if_neg (by omega)]
    omega
  · intro hle
    rw [missByOrigin, if_neg (by omega)]
    omega
  · intro hlt
    rw [missByOrigin, if_neg (by omega)]
    omega
  · intro hlt
    rw [missByOrigin, if_pos hlt]
  · intro heq
    rw [missByOrigin, if_neg (by omega)]
    omega

theorem claim_C10_missBy_witness :
    missByChannel ⟨⟨42, 0⟩, ⟨9, 0, 0⟩⟩ ⟨⟨42, 0⟩, ⟨5, 0, 0⟩⟩ = 18446744073709551615
    ∧ missByOrigin ⟨⟨42, 0⟩, ⟨9, 0, 0⟩⟩ ⟨⟨42, 0⟩, ⟨5, 0, 0⟩⟩ = 9 - 5 - 1 :=
  ⟨(claim_C10_missBy ⟨⟨42, 0⟩, ⟨9, 0, 0⟩⟩ ⟨⟨42, 0⟩, ⟨5, 0, 0⟩⟩
      (by decide) (by decide) (by decide) (by decide)).2.2.2.1 rfl,
   (claim_C10_missBy ⟨⟨42, 0⟩, ⟨9, 0, 0⟩⟩ ⟨⟨42, 0⟩, ⟨5, 0, 0⟩⟩
      (by decide) (by decide) (by decide) (by decide)).2.2.2.2.2.1 (by decide)⟩

end Vmucat

namespace Distrib

/-- query parameter as seen by timeRange (src/distrib.go:227) after Go's
`time.Parse`: absent (the empty string — the parse fails but is ignored and
the zero time is kept), malformed (non-empty, not RFC3339 — rejected), or a
parsed instant, represented as nanoseconds since Go's zero time (the zero
time itself is 0, which `Time.IsZero` reports as unset). -/
inductive Param where
  | absent
  | malformed
  | given (t : ℤ)
deriving DecidableEq

/-- time value a parameter contributes before the defaulting logic runs:
Go keeps the zero time for an absent parameter. -/
def pVal : Param → ℤ
  | .absent => 0
  | .malformed => 0
  | .given t => t

/-- a parameter is effectively absent when timeRange's `IsZero` test treats
it as unset: truly absent, or supplied but parsing to the zero time. -/
def pEffAbsent : Param → Bool
  | .absent => true
  | .malformed => false
  | .given t => t == 0

/-- Modelled from the spec: the constant `Five` used by timeRange lives in
the meex root package, which is not under src/; the spec fixes the snapping
granularity at 5 minutes (300000000000 ns). -/
def Five : ℤ := 300000000000

/-- MaxInterval (src/distrib.go:27): 24 hours in nanoseconds. -/
def MaxInterval : ℤ := 86400000000000

/-- Go's `t.Truncate(d)` for positive `d`: rounds down to the nearest
multiple of `d` since the zero time (`emod` has the sign of the divisor, so
this is the floor multiple for every `t`). -/
def goTruncate (t d : ℤ) : ℤ := t - t % d

/-- timeRange (src/distrib.go:227): parses both bounds, defaults to the
last-24-hours window when both are zero, rejects when exactly one is zero,
rejects an inverted interval and — when `delta` is positive — a span
exceeding `delta`, then snaps the window start down via `Truncate(Five)` and
the window end via `Add(Five).Truncate(Five)`. -/
def timeRange (now delta : ℤ) (ds de : Param) : Except String (ℤ × ℤ) :=
  if ds = Param.malformed then Except.error "bad format dtstart query parameter"
  else if de = Param.malformed then Except.error "bad format dtend query parameter"
  else
    let fd0 := pVal ds
    let td0 := pVal de
    let fd := if fd0 = 0 ∧ td0 = 0 then now - 86400000000000 else fd0
    let td := if fd0 = 0 ∧ td0 = 0 then now else td0
    if fd = 0 ∨ td = 0 then
      Except.error "both dtstart and dtend should be provided"
    else if td < fd ∨ (0 < delta ∧ delta < td - fd) then
      Except.error "invalid interval"
    else
      Except.ok (goTruncate fd Five, goTruncate (td + Five) Five)

/-- C7 counterexample: a request supplying only dtstart (as the RFC3339 zero
time `0001-01-01T00:00:00Z`, which parses successfully to Go's zero time)
and no dtend is accepted with the default window, not rejected — so
"rejects whenever exactly one parameter is supplied" is false as stated. -/
theorem claim_C7_cex :
    timeRange 172800000000000 86400000000000 (Param.given 0) Param.absent
      = Except.ok (86400000000000, 173100000000000) := rfl

/-- C7 (amended): a parameter parsing to Go's zero time is treated as
absent. With that proviso — and for the caps actually used (0 or 24 h) and
a clock strictly later than 24 h past the zero time — timeRange errors
exactly when a parameter is malformed, or exactly one parameter is
effectively supplied, or both are effectively supplied and the end precedes
the start or (positive cap only) the span exceeds the cap; and when both are
effectively absent it succeeds with the default last-24-hours window ending
now, snapped outward to 5-minute boundaries. -/
theorem claim_C7_amended (now delta : ℤ) (ds de : Param)
    (hnow : 86400000000000 < now)
    (hdelta : delta = 0 ∨ delta = MaxInterval) :
    ((∃ e, timeRange now delta ds de = Except.error e) ↔
      (ds = Param.malformed ∨ de = Param.malformed
        ∨ pEffAbsent ds ≠ pEffAbsent de
        ∨ (pEffAbsent ds = false ∧ pEffAbsent de = false
            ∧ (pVal de < pVal ds ∨ (0 < delta ∧ delta < pVal de - pVal ds)))))
    ∧ (pEffAbsent ds = true → pEffAbsent de = true →
        timeRange now delta ds de
          = Except.ok (goTruncate (now - 86400000000000) Five,
                       goTruncate (now + Five) Five)) := by
  have hdel : delta = 0 ∨ delta = 86400000000000 := by
    rcases hdelta with h | h
    · exact Or.inl h
    · right; rw [h]; rfl
  by_cases hm1 : ds = Param.malformed
  · subst hm1
    refine ⟨?_, ?_⟩
    · simp [timeRange]
    · intro hA _
      simp [pEffAbsent] at hA
  by_cases hm2 : de = Param.malformed
  · subst hm2
    refine ⟨?_, ?_⟩
    · rw [timeRange, if_neg hm1, if_pos rfl]
      simp
    · intro _ hB
      simp [pEffAbsent] at hB
  have h1 : pEffAbsent ds = (pVal ds == 0) := by
    rcases ds with _ | _ | s
    · rfl
    · exact absurd rfl hm1
    · rfl
  have h2 : pEffAbsent de = (pVal de == 0) := by
    rcases de with _ | _ | t
    · rfl
    · exact absurd rfl hm2
    · rfl
  have hTR : timeRange now delta ds de =
      (if (if pVal ds = 0 ∧ pVal de = 0 then now - 86400000000000 else pVal ds) = 0
          ∨ (if pVal ds = 0 ∧ pVal de = 0 then now else pVal de) = 0 then
        Except.error "both dtstart and dtend should be provided"
      else if (if pVal ds = 0 ∧ pVal de = 0 then now else pVal de)
              < (if pVal ds = 0 ∧ pVal de = 0 then now - 86400000000000 else pVal ds)
          ∨ (0 < delta ∧ delta
              < (if pVal ds = 0 ∧ pVal de = 0 then now else pVal de)
                - (if pVal ds = 0 ∧ pVal de = 0 then now - 86400000000000 else pVal ds)) then
        Except.error "invalid interval"
      else
        Except.ok
          (goTruncate (if pVal ds = 0 ∧ pVal de = 0 then now - 86400000000000 else pVal ds) Five,
           goTruncate ((if pVal ds = 0 ∧ pVal de = 0 then now else pVal de) + Five) Five)) := by
    rw [timeRange, if_neg hm1, if_neg hm2]
  refine ⟨?_, ?_⟩
  · rw [hTR, h1, h2]
    have hbeq : ((pVal ds == 0) = (pVal de == 0)) ↔ (pVal ds = 0 ↔ pVal de = 0) := by
      by_cases hx : pVal ds = 0 <;> by_cases hy : pVal de = 0 <;> simp [hx, hy]
    have hbf1 : ((pVal ds == 0) = false) ↔ ¬ pVal ds = 0 := by
      by_cases hx : pVal ds = 0 <;> simp [hx]
    have hbf2 : ((pVal de == 0) = false) ↔ ¬ pVal de = 0 := by
      by_cases hy : pVal de = 0 <;> simp [hy]
    simp only [hm1, hm2, false_or, ne_eq, hbeq, hbf1, hbf2]
    by_cases hz : pVal ds = 0 ∧ pVal de = 0
    · simp only [if_pos hz]
      rw [if_neg (by omega), if_neg (by omega)]
      constructor
      · rintro ⟨e, he⟩
        exact absurd he (by simp)
      · rintro (h | ⟨h1', _, _⟩)
        · exact (h ⟨fun _ => hz.2, fun _ => hz.1⟩).elim
        · exact (h1' hz.1).elim
    · simp only [if_neg hz]
      by_cases hone : pVal ds = 0 ∨ pVal de = 0
      · rw [if_pos hone]
        constructor
        · intro _
          left
          intro hiff
          rcases hone with h0 | h0
          · exact hz ⟨h0, hiff.mp h0⟩
          · exact hz ⟨hiff.mpr h0, h0⟩
        · intro _
          exact ⟨_, rfl⟩
      · rw [if_neg hone]
        push_neg at hone
        by_cases hbad : pVal de < pVal ds ∨ (0 < delta ∧ delta < pVal de - pVal ds)
        · rw [if_pos hbad]
          constructor
          · intro _
            exact Or.inr ⟨hone.1, hone.2, hbad⟩
          · intro _
            exact ⟨_, rfl⟩
        · rw [if_neg hbad]
          constructor
          · rintro ⟨e, he⟩
            exact absurd he (by simp)
          · rintro (h | ⟨_, _, hb⟩)
            · exact absurd ⟨fun h0 => absurd h0 hone.1, fun h0 => absurd h0 hone.2⟩ h
            · exact absurd hb hbad
  · intro hA hB
    rw [h1] at hA
    rw [h2] at hB
    have hz : pVal ds = 0 ∧ pVal de = 0 := by
      constructor
      · exact beq_iff_eq.mp hA
      · exact beq_iff_eq.mp hB
    rw [hTR]
    simp only [if_pos hz]
    rw [if_neg (by omega), if_neg (by omega)]

theorem claim_C7_amended_witness :
    (86400000000000 : ℤ) < 172800000000000
    ∧ ((Param.given 0 = Param.malformed ∨ (0 : ℤ) = MaxInterval)
        → True)
    ∧ (((∃ e, timeRange 172800000000000 0 (Param.given 0) Param.absent
            = Except.error e) ↔
          (Param.given (0 : ℤ) = Param.malformed ∨ Param.absent = Param.malformed
            ∨ pEffAbsent (Param.given 0) ≠ pEffAbsent Param.absent
            ∨ (pEffAbsent (Param.given 0) = false ∧ pEffAbsent Param.absent = false
                ∧ (pVal Param.absent < pVal (Param.given 0)
                    ∨ ((0 : ℤ) < 0 ∧ (0 : ℤ) < pVal Param.absent - pVal (Param.given 0))))))
        ∧ (pEffAbsent (Param.given 0) = true → pEffAbsent Param.absent = true →
            timeRange 172800000000000 0 (Param.given 0) Param.absent
              = Except.ok (goTruncate (172800000000000 - 86400000000000) Five,
                           goTruncate (172800000000000 + Five) Five))) :=
  ⟨by decide, fun _ => trivial,
   claim_C7_amended 172800000000000 0 (Param.given 0) Param.absent
     (by decide) (Or.inl rfl)⟩

/-- C8 counterexample: an end bound already on a 5-minute boundary is not
returned unchanged (as "smallest 5-minute multiple greater than or equal to
it" demands): an accepted request ending at exactly 10 minutes past the zero
time comes back with end bound 15 minutes, a full granule later. -/
theorem claim_C8_cex :
    timeRange 999 0 (Param.given 300000000000) (Param.given 600000000000)
      = Except.ok (300000000000, 900000000000)
    ∧ (900000000000 : ℤ) ≠ 600000000000 := ⟨rfl, by decide⟩

/-- C8 (amended): for every accepted request, the returned start is the
supplied (or defaulted) start truncated down to the nearest 5-minute
boundary (the greatest multiple of Five that is ≤ it), while the returned
end is the smallest 5-minute multiple strictly greater than the supplied
(or defaulted) end — the code computes `Add(Five).Truncate(Five)`, so an
end already on a boundary moves a full 5 minutes outward rather than
staying put. -/
theorem claim_C8_amended :
    (∀ now delta s e a b : ℤ, s ≠ 0 → e ≠ 0 →
        timeRange now delta (Param.given s) (Param.given e) = Except.ok (a, b) →
        (Five ∣ a ∧ a ≤ s ∧ s < a + Five) ∧ (Five ∣ b ∧ e < b ∧ b ≤ e + Five))
    ∧ (∀ now delta a b : ℤ,
        timeRange now delta Param.absent Param.absent = Except.ok (a, b) →
        (Five ∣ a ∧ a ≤ now - 86400000000000 ∧ now - 86400000000000 < a + Five)
        ∧ (Five ∣ b ∧ now < b ∧ b ≤ now + Five)) := by
  have hFive : (0 : ℤ) < Five := by decide
  have snap : ∀ x : ℤ, Five ∣ goTruncate x Five ∧ goTruncate x Five ≤ x
      ∧ x < goTruncate x Five + Five := by
    intro x
    have h0 : 0 ≤ x % Five := Int.emod_nonneg x (by decide)
    have h1 : x % Five < Five := Int.emod_lt_of_pos x hFive
    refine ⟨⟨x / Five, ?_⟩, ?_, ?_⟩
    · rw [goTruncate, Int.emod_def]
      ring
    · rw [goTruncate]; omega
    · rw [goTruncate]; omega
  have snapUp : ∀ x : ℤ, Five ∣ goTruncate (x + Five) Five
      ∧ x < goTruncate (x + Five) Five ∧ goTruncate (x + Five) Five ≤ x + Five := by
    intro x
    obtain ⟨hd, hle, hlt⟩ := snap (x + Five)
    refine ⟨hd, ?_, hle⟩
    omega
  refine ⟨?_, ?_⟩
  · intro now delta s e a b hs he hok
    rw [timeRange, if_neg (by simp), if_neg (by simp)] at hok
    simp only [pVal] at hok
    have hcond : ¬(s = 0 ∧ e = 0) := fun hh => hs hh.1
    simp only [if_neg hcond] at hok
    by_cases hzero : s = 0 ∨ e = 0
    · simp only [if_pos hzero] at hok
      exact absurd hok (by simp)
    · simp only [if_neg hzero] at hok
      by_cases hbad : e < s ∨ (0 < delta ∧ delta < e - s)
      · simp only [if_pos hbad] at hok
        exact absurd hok (by simp)
      · simp only [if_neg hbad] at hok
        have hab : goTruncate s Five = a ∧ goTruncate (e + Five) Five = b := by
          have := hok
          injection this with h'
          injection h' with ha hb
          exact ⟨ha, hb⟩
        obtain ⟨ha, hb⟩ := hab
        obtain ⟨d1, l1, g1⟩ := snap s
        obtain ⟨d2, g2, l2⟩ := snapUp e
        rw [ha] at d1 l1 g1
        rw [hb] at d2 g2 l2
        exact ⟨⟨d1, l1, g1⟩, ⟨d2, g2, l2⟩⟩
  · intro now delta a b hok
    rw [timeRange, if_neg (by simp), if_neg (by simp)] at hok
    simp only [pVal, and_self, if_true] at hok
    by_cases hzero : now - 86400000000000 = 0 ∨ now = 0
    · simp only [if_pos hzero] at hok
      exact absurd hok (by simp)
    · simp only [if_neg hzero] at hok
      by_cases hbad : now < now - 86400000000000
          ∨ (0 < delta ∧ delta < now - (now - 86400000000000))
      · simp only [if_pos hbad] at hok
        exact absurd hok (by simp)
      · simp only [if_neg hbad] at hok
        have hab : goTruncate (now - 86400000000000) Five = a
            ∧ goTruncate (now + Five) Five = b := by
          have := hok
          injection this with h'
          injection h' with ha hb
          exact ⟨ha, hb⟩
        obtain ⟨ha, hb⟩ := hab
        obtain ⟨d1, l1, g1⟩ := snap (now - 86400000000000)
        obtain ⟨d2, g2, l2⟩ := snapUp now
        rw [ha] at d1 l1 g1
        rw [hb] at d2 g2 l2
        exact ⟨⟨d1, l1, g1⟩, ⟨d2, g2, l2⟩⟩

theorem claim_C8_amended_witness :
    (1 : ℤ) ≠ 0
    ∧ timeRange 999 0 (Param.given 1) (Param.given 1) = Except.ok (0, 300000000000)
    ∧ ((Five ∣ (0 : ℤ) ∧ (0 : ℤ) ≤ 1 ∧ (1 : ℤ) < 0 + Five)
        ∧ (Five ∣ (300000000000 : ℤ) ∧ (1 : ℤ) < 300000000000
            ∧ (300000000000 : ℤ) ≤ 1 + Five)) :=
  ⟨by decide, rfl,
   claim_C8_amended.1 999 0 1 1 0 300000000000 (by decide) (by decide) rfl⟩

end Distrib

namespace WalkMod

/-- sort.Strings (in Walk, src/walk.go:33): paths are abstracted as naturals
carrying their lexical order (the archive's zero-padded path scheme makes
lexical order total and chronological); sorting is ascending. -/
def sortPaths (paths : List ℕ) : List ℕ :=
  paths.insertionSort (· ≤ ·)

/-- per-path traversal `walk` (src/walk.go:43) composed with the reader: for
each path the filesystem/decoder yields the packets streamed into the queue
before any stat/open error, plus a flag recording whether such an error
occurred (a decode error inside `rt.Packets()` only ends that file's packet
channel and is not reported to Walk, so it raises no flag). Packets are
abstracted as naturals. -/
def walkLoop (fs : ℕ → List ℕ × Bool) : List ℕ → List ℕ
  | [] => []
  | p :: rest =>
    if (fs p).2 then (fs p).1
    else (fs p).1 ++ walkLoop fs rest

/-- Walk (src/walk.go:26): with a nil decoder the goroutine closes the queue
immediately; otherwise it sorts the paths and walks them in order, and a
non-nil error from `walk` makes the goroutine return — closing the output
channel and abandoning every later path. The returned list is the sequence
of packets sent on the channel before it closes. -/
def Walk (d : Option (ℕ → List ℕ × Bool)) (paths : List ℕ) : List ℕ :=
  match d with
  | none => []
  | some fs => walkLoop fs (sortPaths paths)

/-- example filesystem for the counterexample: path 0 fails immediately with
an I/O error, path 1 holds one packet (7). -/
def fsEx : ℕ → List ℕ × Bool :=
  fun p => if p = 0 then ([], true) else ([7], false)

/-- C6 counterexample: an I/O error on the first (sorted) path suppresses the
packets of every later path — walking [0, 1] where path 0 fails yields
nothing even though walking [1] alone yields packet 7. -/
theorem claim_C6_cex :
    Walk (some fsEx) [0, 1] = [] ∧ Walk (some fsEx) [1] = [7] := by decide

theorem walkLoop_no_errors (fs : ℕ → List ℕ × Bool) :
    ∀ l : List ℕ, (∀ p ∈ l, (fs p).2 = false) →
      walkLoop fs l = l.flatMap (fun p => (fs p).1) := by
  intro l
  induction l with
  | nil => intro _; rfl
  | cons p rest ih =>
    intro h
    rw [walkLoop, if_neg (by rw [h p (by simp)]; simp), List.flatMap_cons,
      ih fun q hq => h q (by simp [hq])]

/-- C6 (amended): Walk always terminates and closes its output (it is a
total function); when no path produces an I/O error every path contributes
its packets, in sorted order; but an I/O error on one path ends the whole
walk: the failing path contributes the packets decoded before the error and
every path after it in sorted order contributes nothing — errors on one
path do suppress packets from later paths. -/
theorem claim_C6_amended :
    (∀ (fs : ℕ → List ℕ × Bool) (paths : List ℕ),
        (∀ p ∈ paths, (fs p).2 = false) →
        Walk (some fs) paths = (sortPaths paths).flatMap (fun p => (fs p).1))
    ∧ (∀ (fs : ℕ → List ℕ × Bool) (paths pre : List ℕ) (p : ℕ) (post : List ℕ),
        sortPaths paths = pre ++ p :: post →
        (∀ q ∈ pre, (fs q).2 = false) →
        (fs p).2 = true →
        Walk (some fs) paths = pre.flatMap (fun q => (fs q).1) ++ (fs p).1) := by
  constructor
  · intro fs paths h
    rw [Walk, walkLoop_no_errors]
    intro p hp
    exact h p ((List.perm_insertionSort _ paths).mem_iff.mp hp)
  · intro fs paths pre p post hsplit hpre hfail
    rw [Walk, hsplit]
    clear hsplit
    induction pre with
    | nil =>
      rw [List.nil_append, walkLoop, if_pos hfail]
      simp
    | cons q rest ih =>
      rw [List.cons_append, walkLoop,
        if_neg (by rw [hpre q (by simp)]; simp), List.flatMap_cons,
        List.append_assoc, ih fun r hr => hpre r (by simp [hr])]

theorem claim_C6_amended_witness :
    Walk (some fsEx) [1, 0] = ([] : List ℕ) ++ (fsEx 0).1 :=
  claim_C6_amended.2 fsEx [1, 0] [] 0 [1] (by decide) (by decide) (by decide)

end WalkMod
